import Mathlib

/-!
Verification of the percentile-bracket resolution logic of `나의연봉순위.py`.

The script loads a tax-office income table, normalizes each row's bracket
label (`구분`) to a percentile rank via `get_percentile_rank`, computes a
per-capita income for each row, sorts the table by per-capita income (ties
broken by rank), and, for a positive user query, resolves the query against
the table: out-of-range queries get hard-coded estimates 0 / 100, in-range
queries get `np.interp` linear interpolation clamped to [0,100].

All numeric columns are modelled over `ℚ`.
-/

namespace SalaryRank

/-- Splits a character list into its maximal leading run of decimal digits
and the remainder, as the regex fragment `\d+` or `\d*` consumes greedily. -/
def takeDigits : List Char → List Char × List Char
  | [] => ([], [])
  | c :: cs =>
    if c.isDigit then
      let p := takeDigits cs
      (c :: p.1, p.2)
    else ([], c :: cs)

/-- Match of the regex `\d+\.?\d*` anchored at the head of the list:
one or more digits, optionally a dot followed by more digits.
Returns `none` when the head is not a digit. -/
def matchNumFrom (l : List Char) : Option (List Char) :=
  match l with
  | [] => none
  | c :: _ =>
    if c.isDigit then
      let p1 := takeDigits l
      match p1.2 with
      | '.' :: r2 => some (p1.1 ++ '.' :: (takeDigits r2).1)
      | _ => some p1.1
    else none

/-- `re.search(r'(\d+\.?\d*)', s)`: the first (leftmost, greedy) numeric
substring of `s`, or `none` when `s` has no digit. -/
def firstNum : List Char → Option (List Char)
  | [] => none
  | c :: cs =>
    match matchNumFrom (c :: cs) with
    | some m => some m
    | none => firstNum cs

/-- Value of a run of decimal digit characters. -/
def digitsToNat (l : List Char) : Nat :=
  l.foldl (fun a c => 10 * a + (c.toNat - 48)) 0

/-- Python `float(...)` applied to the matched numeric substring
(digits, optionally a dot and further digits), as a rational. -/
def numCharsToRat (l : List Char) : ℚ :=
  let p := takeDigits l
  match p.2 with
  | '.' :: fr =>
    let fp := (takeDigits fr).1
    (digitsToNat p.1 : ℚ) + (digitsToNat fp : ℚ) / (10 : ℚ) ^ fp.length
  | _ => (digitsToNat p.1 : ℚ)

/-- Whether `pat` is a prefix of `l` (character-by-character). -/
def isPrefixRun : List Char → List Char → Bool
  | [], _ => true
  | _ :: _, [] => false
  | a :: as, b :: bs => a == b && isPrefixRun as bs

/-- Python substring containment `pat in s`: some contiguous run of `l`
equals `pat`. -/
def containsRun (pat : List Char) : List Char → Bool
  | [] => pat.isEmpty
  | c :: cs => isPrefixRun pat (c :: cs) || containsRun pat cs

/-- `get_percentile_rank` of the script: extract the first numeric substring
`v` of the label; `'상위' in s` ("top") gives `100 - v`, `'하위' in s`
("bottom") gives `v`, otherwise (bare thousandth-bracket index) gives
`v / 1000 * 100`; with no numeric substring the function returns `-1`. -/
def get_percentile_rank (s : String) : ℚ :=
  match firstNum s.toList with
  | some m =>
    let value := numCharsToRat m
    if containsRun ['상', '위'] s.toList then 100 - value
    else if containsRun ['하', '위'] s.toList then value
    else value / 1000 * 100
  | none => -1

/-- One raw row of the CSV after `dropna()` and float conversion:
label `구분`, headcount `인원`, aggregate income `근로소득금액`. -/
structure RawRow where
  gubun : String
  inwon : ℚ
  amount : ℚ
deriving DecidableEq, Repr

/-- One row of the working DataFrame: the raw columns plus the derived
columns `근로소득금액_1인당_억원` (`perCapitaEok`),
`근로소득금액_1인당_만원` (`perCapita`) and `percentile_rank` (`rank`). -/
structure TableRow where
  gubun : String
  inwon : ℚ
  amount : ℚ
  perCapitaEok : ℚ
  perCapita : ℚ
  rank : ℚ
deriving DecidableEq, Repr

/-- Derived-column computation of `load_data`: per-capita income is
`amount / inwon` when `inwon > 0` and `0` otherwise (the
ZeroDivisionError guard), converted to 만원 by the factor `1e4`;
the rank comes from `get_percentile_rank` on the label. -/
def mkTableRow (r : RawRow) : TableRow :=
  let eok := if r.inwon > 0 then r.amount / r.inwon else 0
  { gubun := r.gubun, inwon := r.inwon, amount := r.amount,
    perCapitaEok := eok, perCapita := eok * 10000,
    rank := get_percentile_rank r.gubun }

/-- Sort key of `sort_values(by=[per-capita, rank], ascending=True)`:
per-capita income ascending, ties broken by rank ascending. -/
def rowLe (a b : TableRow) : Prop :=
  a.perCapita < b.perCapita ∨ (a.perCapita = b.perCapita ∧ a.rank ≤ b.rank)

instance : DecidableRel rowLe := fun a b => by
  unfold rowLe
  infer_instance

/-- `load_data` of the script, from the post-`dropna` raw rows: build the
derived columns for every row (no row is dropped at this stage) and sort by
(per-capita income, rank) ascending. -/
def load_data (raw : List RawRow) : List TableRow :=
  List.insertionSort rowLe (raw.map mkTableRow)

/-- Binary minimum, as Python's `min` / the fold underlying a pandas
column `.min()`. -/
def minQ (a b : ℚ) : ℚ := if a ≤ b then a else b

/-- Binary maximum, as Python's `max` / the fold underlying a pandas
column `.max()`. -/
def maxQ (a b : ℚ) : ℚ := if b ≤ a then a else b

/-- `min_income_data`: minimum of the per-capita income column. -/
def tableMin (t0 : TableRow) (rest : List TableRow) : ℚ :=
  rest.foldl (fun a t => minQ a t.perCapita) t0.perCapita

/-- `max_income_data`: maximum of the per-capita income column. -/
def tableMax (t0 : TableRow) (rest : List TableRow) : ℚ :=
  rest.foldl (fun a t => maxQ a t.perCapita) t0.perCapita

/-- The per-capita income column `df['근로소득금액_1인당_만원'].values`. -/
def tableVals (df : List TableRow) : List ℚ := df.map fun t => t.perCapita

/-- The rank column `df['percentile_rank'].values`. -/
def tableRanks (df : List TableRow) : List ℚ := df.map fun t => t.rank

/-- The two columns zipped: interpolation nodes `(value, rank)`. -/
def tablePairs (df : List TableRow) : List (ℚ × ℚ) :=
  df.map fun t => (t.perCapita, t.rank)

/-- Modelled from the spec and the numpy documentation: `np.interp(x, xp, fp)`
(an external library function, not part of this repository's sources) is
piecewise-linear interpolation of `fp` over ascending nodes `xp`, returning
`fp.head` left of the first node and `fp.last` from the last node on.
The script only calls it on the table sorted ascending by value. -/
def npInterp (x : ℚ) : List (ℚ × ℚ) → ℚ
  | [] => 0
  | [p] => p.2
  | p1 :: p2 :: rest =>
    if x < p1.1 then p1.2
    else if x < p2.1 then p1.2 + (x - p1.1) * (p2.2 - p1.2) / (p2.1 - p1.1)
    else npInterp x (p2 :: rest)

theorem npInterp_nil (x : ℚ) : npInterp x [] = 0 := rfl

theorem npInterp_single (x : ℚ) (p : ℚ × ℚ) : npInterp x [p] = p.2 := rfl

theorem npInterp_cons2 (x : ℚ) (p1 p2 : ℚ × ℚ) (rest : List (ℚ × ℚ)) :
    npInterp x (p1 :: p2 :: rest) =
      if x < p1.1 then p1.2
      else if x < p2.1 then p1.2 + (x - p1.1) * (p2.2 - p1.2) / (p2.1 - p1.1)
      else npInterp x (p2 :: rest) := rfl

/-- The clamp `max(0.0, min(100.0, estimate))` of the script. -/
def clip100 (x : ℚ) : ℚ := maxQ 0 (minQ 100 x)

/-- Which of the script's result branches fired: below the table range,
above it, a bounding pair of rows, or the no-lower-bound branch
(query at or below the first bracket value). -/
inductive ResKind where
  | belowRange : ResKind
  | aboveRange : ResKind
  | bracket (lower upper : TableRow) : ResKind
  | atOrBelowFirst (upper : TableRow) : ResKind
deriving DecidableEq, Repr

/-- Structured output of one resolution: the branch taken and the
`user_percentile_estimate` the script computes in that branch. -/
structure ResolutionResult where
  kind : ResKind
  estimate : ℚ
deriving DecidableEq, Repr

/-- Failure of a resolution request. On an empty table the script's
`min()`/`max()` are NaN, both range comparisons are False, and indexing
`upper_bound_indices[0]` raises; modelled as this error. -/
inductive ResolveErr where
  | emptyTable : ResolveErr
deriving DecidableEq, Repr

/-- The resolution flow of the script's main block (the body of
`if user_income > 0`): compare the query against the column min and max
(hard-coded estimates `0.0` / `100.0` outside the range), otherwise take
`upper` = first row with value ≥ query, `lower` = last row with
value < query (branching on whether one exists), and estimate via
`np.interp` over the full table, clamped to [0,100]. -/
def resolve (df : List TableRow) (q : ℚ) : Except ResolveErr ResolutionResult :=
  match df with
  | [] => Except.error ResolveErr.emptyTable
  | t0 :: rest =>
    if q < tableMin t0 rest then Except.ok ⟨ResKind.belowRange, 0⟩
    else if tableMax t0 rest < q then Except.ok ⟨ResKind.aboveRange, 100⟩
    else
      match (t0 :: rest).find? (fun t => decide (q ≤ t.perCapita)) with
      | none => Except.error ResolveErr.emptyTable
      | some upper =>
        let est := clip100 (npInterp q (tablePairs (t0 :: rest)))
        match ((t0 :: rest).filter (fun t => decide (t.perCapita < q))).getLast? with
        | some lower => Except.ok ⟨ResKind.bracket lower upper, est⟩
        | none => Except.ok ⟨ResKind.atOrBelowFirst upper, est⟩

/-- The interpolated percentile carried by a successful resolution. -/
def resEstimate (e : Except ResolveErr ResolutionResult) : Option ℚ :=
  match e with
  | Except.ok r => some r.estimate
  | Except.error _ => none

/-- The main block's input gate: the script resolves only when
`user_income > 0`; otherwise it shows the introductory message and
produces no resolution at all. -/
def mainResult (df : List TableRow) (user_income : ℚ) :
    Option (Except ResolveErr ResolutionResult) :=
  if user_income > 0 then some (resolve df user_income) else none

/-- A table row with the given per-capita value and rank (the other columns
play no part in resolution). -/
def mkRow (v r : ℚ) : TableRow :=
  { gubun := "", inwon := 0, amount := 0, perCapitaEok := 0,
    perCapita := v, rank := r }

/-- The estimate produced for a query on a non-empty table, by branch. -/
def estFun (t0 : TableRow) (rest : List TableRow) (q : ℚ) : ℚ :=
  if q < tableMin t0 rest then 0
  else if tableMax t0 rest < q then 100
  else clip100 (npInterp q (tablePairs (t0 :: rest)))

theorem npInterp_single' (x x1 f1 : ℚ) : npInterp x [(x1, f1)] = f1 := rfl

theorem npInterp_cons2' (x x1 f1 x2 f2 : ℚ) (rest : List (ℚ × ℚ)) :
    npInterp x ((x1, f1) :: (x2, f2) :: rest) =
      if x < x1 then f1
      else if x < x2 then f1 + (x - x1) * (f2 - f1) / (x2 - x1)
      else npInterp x ((x2, f2) :: rest) := rfl

theorem minQ_eq_min (a b : ℚ) : minQ a b = min a b := by
  unfold minQ
  exact (min_def a b).symm

theorem maxQ_eq_max (a b : ℚ) : maxQ a b = max a b := by
  unfold maxQ
  split
  next h => exact (max_eq_left h).symm
  next h => exact (max_eq_right (le_of_not_le h)).symm

theorem clip100_eq (x : ℚ) : clip100 x = max 0 (min 100 x) := by
  unfold clip100
  rw [minQ_eq_min, maxQ_eq_max]

theorem clip100_nonneg (x : ℚ) : 0 ≤ clip100 x := by
  rw [clip100_eq]
  exact le_max_left 0 _

theorem clip100_le (x : ℚ) : clip100 x ≤ 100 := by
  rw [clip100_eq]
  exact max_le (by norm_num) (min_le_left 100 x)

theorem clip100_eq_self (x : ℚ) (h0 : 0 ≤ x) (h1 : x ≤ 100) : clip100 x = x := by
  rw [clip100_eq, min_eq_right h1, max_eq_right h0]

theorem clip100_mono (x y : ℚ) (h : x ≤ y) : clip100 x ≤ clip100 y := by
  rw [clip100_eq, clip100_eq]
  exact max_le_max le_rfl (min_le_min le_rfl h)

theorem foldlMin_le_init (l : List TableRow) (a : ℚ) :
    l.foldl (fun b t => minQ b t.perCapita) a ≤ a := by
  induction l generalizing a with
  | nil => exact le_refl a
  | cons u ts ih =>
    rw [List.foldl_cons]
    refine le_trans (ih (minQ a u.perCapita)) ?h
    rw [minQ_eq_min]
    exact min_le_left a u.perCapita

theorem foldlMin_le_mem (l : List TableRow) (a : ℚ) (t : TableRow) (h : t ∈ l) :
    l.foldl (fun b t => minQ b t.perCapita) a ≤ t.perCapita := by
  induction l generalizing a with
  | nil => exact absurd h (List.not_mem_nil t)
  | cons u ts ih =>
    rw [List.foldl_cons]
    rcases List.mem_cons.mp h with h1 | h2
    · subst h1
      refine le_trans (foldlMin_le_init ts _) ?h
      rw [minQ_eq_min]
      exact min_le_right a t.perCapita
    · exact ih (minQ a u.perCapita) h2

theorem init_le_foldlMax (l : List TableRow) (a : ℚ) :
    a ≤ l.foldl (fun b t => maxQ b t.perCapita) a := by
  induction l generalizing a with
  | nil => exact le_refl a
  | cons u ts ih =>
    rw [List.foldl_cons]
    refine le_trans ?h (ih (maxQ a u.perCapita))
    rw [maxQ_eq_max]
    exact le_max_left a u.perCapita

theorem mem_le_foldlMax (l : List TableRow) (a : ℚ) (t : TableRow) (h : t ∈ l) :
    t.perCapita ≤ l.foldl (fun b t => maxQ b t.perCapita) a := by
  induction l generalizing a with
  | nil => exact absurd h (List.not_mem_nil t)
  | cons u ts ih =>
    rw [List.foldl_cons]
    rcases List.mem_cons.mp h with h1 | h2
    · subst h1
      refine le_trans ?h (init_le_foldlMax ts _)
      rw [maxQ_eq_max]
      exact le_max_right a t.perCapita
    · exact ih (maxQ a u.perCapita) h2

theorem foldlMax_attained (l : List TableRow) (a : ℚ) :
    l.foldl (fun b t => maxQ b t.perCapita) a = a ∨
      ∃ t ∈ l, l.foldl (fun b t => maxQ b t.perCapita) a = t.perCapita := by
  induction l generalizing a with
  | nil => exact Or.inl rfl
  | cons u ts ih =>
    rw [List.foldl_cons]
    rcases ih (maxQ a u.perCapita) with h | ⟨t, ht, heq⟩
    · by_cases hc : u.perCapita ≤ a
      · left
        rw [h]
        unfold maxQ
        rw [if_pos hc]
      · right
        refine ⟨u, List.mem_cons_self u ts, ?h⟩
        rw [h]
        unfold maxQ
        rw [if_neg hc]
    · exact Or.inr ⟨t, List.mem_cons_of_mem u ht, heq⟩

theorem tableMin_le_mem (t0 : TableRow) (rest : List TableRow) (t : TableRow)
    (h : t ∈ t0 :: rest) : tableMin t0 rest ≤ t.perCapita := by
  unfold tableMin
  rcases List.mem_cons.mp h with h1 | h2
  · subst h1
    exact foldlMin_le_init rest t.perCapita
  · exact foldlMin_le_mem rest t0.perCapita t h2

theorem mem_le_tableMax (t0 : TableRow) (rest : List TableRow) (t : TableRow)
    (h : t ∈ t0 :: rest) : t.perCapita ≤ tableMax t0 rest := by
  unfold tableMax
  rcases List.mem_cons.mp h with h1 | h2
  · subst h1
    exact init_le_foldlMax rest t.perCapita
  · exact mem_le_foldlMax rest t0.perCapita t h2

theorem tableMin_le_tableMax (t0 : TableRow) (rest : List TableRow) :
    tableMin t0 rest ≤ tableMax t0 rest :=
  le_trans (tableMin_le_mem t0 rest t0 (List.mem_cons_self t0 rest))
    (mem_le_tableMax t0 rest t0 (List.mem_cons_self t0 rest))

/-- Unfolding equation for `resolve` on a non-empty table. -/
theorem resolve_cons (t0 : TableRow) (rest : List TableRow) (q : ℚ) :
    resolve (t0 :: rest) q =
      if q < tableMin t0 rest then Except.ok ⟨ResKind.belowRange, 0⟩
      else if tableMax t0 rest < q then Except.ok ⟨ResKind.aboveRange, 100⟩
      else
        match (t0 :: rest).find? (fun t => decide (q ≤ t.perCapita)) with
        | none => Except.error ResolveErr.emptyTable
        | some upper =>
          match ((t0 :: rest).filter (fun t => decide (t.perCapita < q))).getLast? with
          | some lower => Except.ok ⟨ResKind.bracket lower upper,
              clip100 (npInterp q (tablePairs (t0 :: rest)))⟩
          | none => Except.ok ⟨ResKind.atOrBelowFirst upper,
              clip100 (npInterp q (tablePairs (t0 :: rest)))⟩ := rfl

/-- When the query is not above the column maximum, some row has
value ≥ query, so the script's `upper_bound_indices[0]` exists. -/
theorem find_upper_some (t0 : TableRow) (rest : List TableRow) (q : ℚ)
    (h : ¬ tableMax t0 rest < q) :
    ∃ u, (t0 :: rest).find? (fun t => decide (q ≤ t.perCapita)) = some u := by
  cases hc : (t0 :: rest).find? (fun t => decide (q ≤ t.perCapita)) with
  | some u => exact ⟨u, rfl⟩
  | none =>
    exfalso
    have hall := List.find?_eq_none.mp hc
    have hlt : ∀ t ∈ t0 :: rest, t.perCapita < q := by
      intro t ht
      have h2 := hall t ht
      simp only [decide_eq_true_eq] at h2
      exact lt_of_not_le h2
    apply h
    rcases foldlMax_attained rest t0.perCapita with h3 | ⟨t, ht, h3⟩
    · unfold tableMax
      rw [h3]
      exact hlt t0 (List.mem_cons_self t0 rest)
    · unfold tableMax
      rw [h3]
      exact hlt t (List.mem_cons_of_mem t0 ht)

/-- On a non-empty table every resolution succeeds, and the estimate is
`estFun`: 0 below the range, 100 above it, the clamped interpolation
inside it. -/
theorem resEstimate_resolve (t0 : TableRow) (rest : List TableRow) (q : ℚ) :
    resEstimate (resolve (t0 :: rest) q) = some (estFun t0 rest q) := by
  rw [resolve_cons]
  unfold estFun
  by_cases h1 : q < tableMin t0 rest
  · rw [if_pos h1, if_pos h1]
    rfl
  · rw [if_neg h1, if_neg h1]
    by_cases h2 : tableMax t0 rest < q
    · rw [if_pos h2, if_pos h2]
      rfl
    · rw [if_neg h2, if_neg h2]
      obtain ⟨u, hu⟩ := find_upper_some t0 rest q h2
      rw [hu]
      cases ((t0 :: rest).filter (fun t => decide (t.perCapita < q))).getLast? with
      | some lower => rfl
      | none => rfl

theorem tablePairs_fst (df : List TableRow) :
    (tablePairs df).map Prod.fst = tableVals df := by
  unfold tablePairs tableVals
  rw [List.map_map]
  rfl

theorem tablePairs_snd (df : List TableRow) :
    (tablePairs df).map Prod.snd = tableRanks df := by
  unfold tablePairs tableRanks
  rw [List.map_map]
  rfl

/-- With the rank column ascending, interpolation never goes below the
first node's rank. -/
theorem interp_ge_head (q x f : ℚ) (ps : List (ℚ × ℚ))
    (hs : List.Sorted (· ≤ ·) (((x, f) :: ps).map Prod.snd)) :
    f ≤ npInterp q ((x, f) :: ps) := by
  induction ps generalizing x f with
  | nil =>
    rw [npInterp_single']
  | cons p rest ih =>
    obtain ⟨x2, f2⟩ := p
    rw [List.map_cons, List.map_cons, List.sorted_cons] at hs
    obtain ⟨hhead, htail⟩ := hs
    have hff2 : f ≤ f2 := hhead f2 (by simp)
    rw [npInterp_cons2']
    split
    next => exact le_refl f
    next h1 =>
      split
      next h2 =>
        have hx : x < x2 := lt_of_le_of_lt (not_lt.mp h1) h2
        have hnn : 0 ≤ (q - x) * (f2 - f) / (x2 - x) := by
          apply div_nonneg
          · apply mul_nonneg
            · linarith [not_lt.mp h1]
            · linarith
          · linarith
        linarith
      next =>
        refine le_trans hff2 (ih x2 f2 ?h)
        rw [List.map_cons]
        exact htail

/-- Monotonicity of interpolation: ascending nodes and ascending ranks
give a non-decreasing interpolant. -/
theorem interp_mono (ps : List (ℚ × ℚ))
    (hx : List.Sorted (· ≤ ·) (ps.map Prod.fst))
    (hf : List.Sorted (· ≤ ·) (ps.map Prod.snd))
    (q1 q2 : ℚ) (hq : q1 ≤ q2) :
    npInterp q1 ps ≤ npInterp q2 ps := by
  induction ps with
  | nil =>
    rw [npInterp_nil, npInterp_nil]
  | cons p rest ih =>
    cases rest with
    | nil =>
      obtain ⟨x1, f1⟩ := p
      rw [npInterp_single', npInterp_single']
    | cons p2 rest2 =>
      obtain ⟨x1, f1⟩ := p
      obtain ⟨x2, f2⟩ := p2
      rw [List.map_cons, List.map_cons, List.sorted_cons] at hx hf
      obtain ⟨hxh, hxt⟩ := hx
      obtain ⟨hfh, hft⟩ := hf
      have hf12 : f1 ≤ f2 := hfh f2 (by simp)
      rw [npInterp_cons2' q1]
      split
      next =>
        exact interp_ge_head q2 x1 f1 ((x2, f2) :: rest2)
          (by rw [List.map_cons, List.map_cons, List.sorted_cons]; exact ⟨hfh, hft⟩)
      next h1a =>
        have hx1q1 : x1 ≤ q1 := not_lt.mp h1a
        have h2a : ¬ q2 < x1 := fun hc => h1a (lt_of_le_of_lt hq hc)
        split
        next h1b =>
          have hx12 : x1 < x2 := lt_of_le_of_lt hx1q1 h1b
          rw [npInterp_cons2' q2, if_neg h2a]
          split
          next h2b =>
            have key : (q1 - x1) * (f2 - f1) / (x2 - x1) ≤
                (q2 - x1) * (f2 - f1) / (x2 - x1) := by
              refine (div_le_div_iff_of_pos_right (c := x2 - x1) (by linarith)).mpr ?h
              apply mul_le_mul_of_nonneg_right (by linarith) (by linarith)
            linarith
          next h2b =>
            have hge : f2 ≤ npInterp q2 ((x2, f2) :: rest2) :=
              interp_ge_head q2 x2 f2 rest2 (by rw [List.map_cons]; exact hft)
            have h5 : (q1 - x1) * (f2 - f1) ≤ (x2 - x1) * (f2 - f1) :=
              mul_le_mul_of_nonneg_right (by linarith) (by linarith)
            have h6 : (q1 - x1) * (f2 - f1) / (x2 - x1) ≤
                (x2 - x1) * (f2 - f1) / (x2 - x1) :=
              (div_le_div_iff_of_pos_right (c := x2 - x1) (by linarith)).mpr h5
            have h7 : (x2 - x1) * (f2 - f1) / (x2 - x1) = f2 - f1 :=
              mul_div_cancel_left₀ (f2 - f1) (ne_of_gt (by linarith))
            linarith
        next h1b =>
          have h2b : ¬ q2 < x2 := fun hc => h1b (lt_of_le_of_lt hq hc)
          rw [npInterp_cons2' q2, if_neg h2a, if_neg h2b]
          exact ih (by rw [List.map_cons]; exact hxt) (by rw [List.map_cons]; exact hft)

/-- With strictly increasing nodes, interpolation at a node value returns
that node's rank exactly. -/
theorem interp_at (ps : List (ℚ × ℚ))
    (hx : List.Sorted (· < ·) (ps.map Prod.fst)) :
    ∀ v r : ℚ, (v, r) ∈ ps → npInterp v ps = r := by
  induction ps with
  | nil =>
    intro v r h
    exact absurd h (List.not_mem_nil _)
  | cons p rest ih =>
    cases rest with
    | nil =>
      intro v r h
      have h' : (v, r) = p := List.mem_singleton.mp h
      obtain ⟨x1, f1⟩ := p
      injection h' with hv hr
      subst hv hr
      rw [npInterp_single']
    | cons p2 rest2 =>
      obtain ⟨x1, f1⟩ := p
      obtain ⟨x2, f2⟩ := p2
      rw [List.map_cons, List.map_cons, List.sorted_cons] at hx
      obtain ⟨hxh, hxt⟩ := hx
      have hx12 : x1 < x2 := hxh x2 (by simp)
      intro v r h
      rcases List.mem_cons.mp h with h1 | h2
      · injection h1 with hv hr
        subst hv hr
        rw [npInterp_cons2', if_neg (lt_irrefl v), if_pos hx12]
        ring
      · have hvx2 : x2 ≤ v := by
          rcases List.mem_cons.mp h2 with h3 | h4
          · injection h3 with hv hr
            exact le_of_eq hv.symm
          · have hm : v ∈ rest2.map Prod.fst := List.mem_map_of_mem Prod.fst h4
            exact le_of_lt ((List.sorted_cons.mp hxt).1 v hm)
        rw [npInterp_cons2', if_neg (not_lt.mpr (le_trans (le_of_lt hx12) hvx2)),
          if_neg (not_lt.mpr hvx2)]
        exact ih (by rw [List.map_cons]; exact hxt) v r h2

/-- C1, counterexample: a reference row whose label has no numeric substring
is NOT excluded from the usable table — `get_percentile_rank` returns `-1`
and `load_data` keeps the row, so the working table contains a row whose
rank lies outside [0,100]. -/
theorem malformed_label_row_retained :
    load_data [⟨"abc", 1, 2⟩] = [mkTableRow ⟨"abc", 1, 2⟩] ∧
    (mkTableRow ⟨"abc", 1, 2⟩).rank = -1 ∧
    ¬ (0 ≤ (mkTableRow ⟨"abc", 1, 2⟩).rank) := by
  have h : (mkTableRow ⟨"abc", 1, 2⟩).rank = -1 := rfl
  refine ⟨rfl, h, ?x⟩
  rw [h]
  norm_num

/-- C1, amended: a reference row whose label contains no numeric substring
gets percentile rank `-1` and is retained (not excluded) in the working
table built by `load_data`; the table may therefore hold rows whose rank is
outside [0,100]. -/
theorem malformed_label_rank_neg_one (r : RawRow)
    (h : firstNum r.gubun.toList = none) :
    (mkTableRow r).rank = -1 ∧
      ∀ raw : List RawRow, r ∈ raw → mkTableRow r ∈ load_data raw := by
  constructor
  · show get_percentile_rank r.gubun = -1
    unfold get_percentile_rank
    rw [h]
  · intro raw hr
    unfold load_data
    exact (List.perm_insertionSort rowLe (raw.map mkTableRow)).mem_iff.mpr
      (List.mem_map_of_mem mkTableRow hr)

/-- C1, witness for the amended claim at the concrete label "abc". -/
theorem malformed_label_rank_neg_one_witness :
    (mkTableRow ⟨"abc", 1, 2⟩).rank = -1 ∧
      mkTableRow ⟨"abc", 1, 2⟩ ∈ load_data [⟨"abc", 1, 2⟩] :=
  ⟨(malformed_label_rank_neg_one ⟨"abc", 1, 2⟩ rfl).1,
   (malformed_label_rank_neg_one ⟨"abc", 1, 2⟩ rfl).2 [⟨"abc", 1, 2⟩]
     (List.mem_singleton.mpr rfl)⟩

/-- C2: when the loaded table is empty, every resolution request fails with
the empty-table error instead of producing a result. -/
theorem empty_table_resolution_fails (raw : List RawRow)
    (h : load_data raw = []) (q : ℚ) :
    resolve (load_data raw) q = Except.error ResolveErr.emptyTable := by
  rw [h]
  rfl

/-- C2, witness: the empty raw input loads to an empty table and the query 5
fails with the empty-table error. -/
theorem empty_table_resolution_fails_witness :
    resolve (load_data []) 5 = Except.error ResolveErr.emptyTable :=
  empty_table_resolution_fails [] rfl 5

/-- C3: on the table [(1200,5),(3000,45),(8000,95)] the query 2000 resolves
to the bounding pair (1200,5) and (3000,45) with interpolated percentile
5 + (2000−1200)/(3000−1200)·(45−5). -/
theorem concrete_scenario_query_2000 :
    resolve [mkRow 1200 5, mkRow 3000 45, mkRow 8000 95] 2000 =
      Except.ok ⟨ResKind.bracket (mkRow 1200 5) (mkRow 3000 45),
        5 + (2000 - 1200) / (3000 - 1200) * (45 - 5)⟩ := by
  have h1 : resolve [mkRow 1200 5, mkRow 3000 45, mkRow 8000 95] 2000 =
      Except.ok ⟨ResKind.bracket (mkRow 1200 5) (mkRow 3000 45),
        clip100 (npInterp 2000
          (tablePairs [mkRow 1200 5, mkRow 3000 45, mkRow 8000 95]))⟩ := rfl
  rw [h1]
  norm_num [clip100, minQ, maxQ, tablePairs, mkRow, npInterp]

/-- C4: on any non-empty table, a query strictly below the column minimum
resolves to BelowRange with estimate 0, and a query strictly above the
column maximum resolves to AboveRange with estimate 100. -/
theorem resolve_out_of_range (t0 : TableRow) (rest : List TableRow) (q : ℚ) :
    (q < tableMin t0 rest →
      resolve (t0 :: rest) q = Except.ok ⟨ResKind.belowRange, 0⟩) ∧
    (tableMax t0 rest < q →
      resolve (t0 :: rest) q = Except.ok ⟨ResKind.aboveRange, 100⟩) := by
  constructor
  · intro h
    rw [resolve_cons, if_pos h]
  · intro h
    have h1 : ¬ q < tableMin t0 rest :=
      not_lt.mpr (le_trans (tableMin_le_tableMax t0 rest) (le_of_lt h))
    rw [resolve_cons, if_neg h1, if_pos h]

/-- C4, witness on the one-row table [(10,5)] with queries 3 and 20. -/
theorem resolve_out_of_range_witness :
    resolve [mkRow 10 5] 3 = Except.ok ⟨ResKind.belowRange, 0⟩ ∧
    resolve [mkRow 10 5] 20 = Except.ok ⟨ResKind.aboveRange, 100⟩ :=
  ⟨(resolve_out_of_range (mkRow 10 5) [] 3).1 (by decide),
   (resolve_out_of_range (mkRow 10 5) [] 20).2 (by decide)⟩

/-- C9: for every raw row, per-capita value is amount divided by headcount
when the headcount is positive, and 0 (with no error) when it is zero. -/
theorem per_capita_value (r : RawRow) :
    (0 < r.inwon → (mkTableRow r).perCapitaEok = r.amount / r.inwon) ∧
    (r.inwon = 0 → (mkTableRow r).perCapitaEok = 0) := by
  constructor
  · intro h
    show (if r.inwon > 0 then r.amount / r.inwon else 0) = r.amount / r.inwon
    rw [if_pos h]
  · intro h
    show (if r.inwon > 0 then r.amount / r.inwon else 0) = 0
    rw [if_neg (by rw [h]; exact lt_irrefl 0)]

/-- C9, witness at headcounts 2 and 0. -/
theorem per_capita_value_witness :
    (mkTableRow ⟨"x", 2, 10⟩).perCapitaEok = 10 / 2 ∧
    (mkTableRow ⟨"y", 0, 7⟩).perCapitaEok = 0 :=
  ⟨(per_capita_value ⟨"x", 2, 10⟩).1 (by decide),
   (per_capita_value ⟨"y", 0, 7⟩).2 rfl⟩

/-- C10: a query equal to 0 never triggers resolution (the main block's
`user_income > 0` gate), and any query that does produce a resolution is
strictly positive. -/
theorem zero_query_no_resolution (df : List TableRow) (q : ℚ) :
    mainResult df 0 = none ∧ (mainResult df q = none ∨ 0 < q) := by
  constructor
  · unfold mainResult
    rw [if_neg (lt_irrefl 0)]
  · by_cases h : 0 < q
    · exact Or.inr h
    · refine Or.inl ?x
      unfold mainResult
      rw [if_neg h]

/-- C5, counterexample: the table [(5,10),(5,20)] satisfies the spec's
invariants (sorted by value with rank tie-break, ranks in [0,100]), yet the
query 5 — exactly the value of the row (5,10) — yields estimate 20, not that
row's rank 10: with tied values `np.interp` returns the last tied node. -/
theorem duplicate_value_estimate_mismatch :
    mkRow 5 10 ∈ [mkRow 5 10, mkRow 5 20] ∧
    (mkRow 5 10).perCapita = 5 ∧ (mkRow 5 10).rank = 10 ∧
    resEstimate (resolve [mkRow 5 10, mkRow 5 20] 5) = some 20 ∧
    (20 : ℚ) ≠ 10 := by
  refine ⟨List.mem_cons_self _ _, rfl, rfl, ?h1, by norm_num⟩
  have h1 : resEstimate (resolve [mkRow 5 10, mkRow 5 20] 5) =
      some (clip100 (npInterp 5 (tablePairs [mkRow 5 10, mkRow 5 20]))) := rfl
  rw [h1]
  norm_num [clip100, minQ, maxQ, tablePairs, mkRow, npInterp]

/-- C5, amended: when the table's values are strictly increasing (no tied
values) and every rank lies in [0,100], resolving a query exactly equal to a
row's value yields exactly that row's rank. -/
theorem query_at_row_value (df : List TableRow)
    (hx : List.Sorted (· < ·) (tableVals df))
    (hr : ∀ t ∈ df, 0 ≤ t.rank ∧ t.rank ≤ 100)
    (t : TableRow) (ht : t ∈ df) :
    resEstimate (resolve df t.perCapita) = some t.rank := by
  cases df with
  | nil => exact absurd ht (List.not_mem_nil t)
  | cons t0 rest =>
    rw [resEstimate_resolve]
    have hmin : ¬ t.perCapita < tableMin t0 rest :=
      not_lt.mpr (tableMin_le_mem t0 rest t ht)
    have hmax : ¬ tableMax t0 rest < t.perCapita :=
      not_lt.mpr (mem_le_tableMax t0 rest t ht)
    unfold estFun
    rw [if_neg hmin, if_neg hmax]
    have hmem : (t.perCapita, t.rank) ∈ tablePairs (t0 :: rest) :=
      List.mem_map_of_mem (fun u => (u.perCapita, u.rank)) ht
    have hint : npInterp t.perCapita (tablePairs (t0 :: rest)) = t.rank :=
      interp_at (tablePairs (t0 :: rest))
        (by rw [tablePairs_fst]; exact hx) t.perCapita t.rank hmem
    rw [hint]
    obtain ⟨h0, h100⟩ := hr t ht
    exact congrArg some (clip100_eq_self t.rank h0 h100)

/-- C5, witness for the amended claim: querying exactly 3000 on the
strictly-increasing table of C3 returns that row's rank 45. -/
theorem query_at_row_value_witness :
    resEstimate (resolve [mkRow 1200 5, mkRow 3000 45, mkRow 8000 95]
      (mkRow 3000 45).perCapita) = some (mkRow 3000 45).rank :=
  query_at_row_value [mkRow 1200 5, mkRow 3000 45, mkRow 8000 95]
    (by decide) (by decide) (mkRow 3000 45) (by decide)

/-- Monotonicity of the per-branch estimate in the query. -/
theorem estFun_mono (t0 : TableRow) (rest : List TableRow)
    (hx : List.Sorted (· ≤ ·) (tableVals (t0 :: rest)))
    (hf : List.Sorted (· ≤ ·) (tableRanks (t0 :: rest)))
    (q1 q2 : ℚ) (hq : q1 ≤ q2) :
    estFun t0 rest q1 ≤ estFun t0 rest q2 := by
  unfold estFun
  by_cases h1m : q1 < tableMin t0 rest
  · rw [if_pos h1m]
    split
    next => exact le_refl 0
    next =>
      split
      next => norm_num
      next => exact clip100_nonneg _
  · have h2m : ¬ q2 < tableMin t0 rest := fun hc => h1m (lt_of_le_of_lt hq hc)
    rw [if_neg h1m, if_neg h2m]
    by_cases h1M : tableMax t0 rest < q1
    · rw [if_pos h1M, if_pos (lt_of_lt_of_le h1M hq)]
    · rw [if_neg h1M]
      by_cases h2M : tableMax t0 rest < q2
      · rw [if_pos h2M]
        exact clip100_le _
      · rw [if_neg h2M]
        apply clip100_mono
        apply interp_mono
        · rw [tablePairs_fst]
          exact hx
        · rw [tablePairs_snd]
          exact hf
        · exact hq

/-- C6: when the value and rank columns are both sorted ascending, the
interpolated percentile is non-decreasing in the query. -/
theorem interpolation_monotone (t0 : TableRow) (rest : List TableRow)
    (hx : List.Sorted (· ≤ ·) (tableVals (t0 :: rest)))
    (hf : List.Sorted (· ≤ ·) (tableRanks (t0 :: rest)))
    (q1 q2 : ℚ) (hq : q1 < q2) (e1 e2 : ℚ)
    (h1 : resEstimate (resolve (t0 :: rest) q1) = some e1)
    (h2 : resEstimate (resolve (t0 :: rest) q2) = some e2) :
    e1 ≤ e2 := by
  rw [resEstimate_resolve] at h1 h2
  rw [← Option.some.inj h1, ← Option.some.inj h2]
  exact estFun_mono t0 rest hx hf q1 q2 (le_of_lt hq)

/-- C6, witness on the table [(0,0),(10,100)] with queries 5 and 7. -/
theorem interpolation_monotone_witness :
    resEstimate (resolve [mkRow 0 0, mkRow 10 100] 5) = some 50 ∧
    resEstimate (resolve [mkRow 0 0, mkRow 10 100] 7) = some 70 ∧
    (50 : ℚ) ≤ 70 := by
  have h1 : resEstimate (resolve [mkRow 0 0, mkRow 10 100] 5) = some 50 := by
    have hs : resEstimate (resolve [mkRow 0 0, mkRow 10 100] 5) =
        some (clip100 (npInterp 5 (tablePairs [mkRow 0 0, mkRow 10 100]))) := rfl
    rw [hs]
    norm_num [clip100, minQ, maxQ, tablePairs, mkRow, npInterp]
  have h2 : resEstimate (resolve [mkRow 0 0, mkRow 10 100] 7) = some 70 := by
    have hs : resEstimate (resolve [mkRow 0 0, mkRow 10 100] 7) =
        some (clip100 (npInterp 7 (tablePairs [mkRow 0 0, mkRow 10 100]))) := rfl
    rw [hs]
    norm_num [clip100, minQ, maxQ, tablePairs, mkRow, npInterp]
  exact ⟨h1, h2, interpolation_monotone (mkRow 0 0) [mkRow 10 100]
    (by decide) (by decide) 5 7 (by norm_num) 50 70 h1 h2⟩

/-- C7: a label containing the "top" token with extracted number 1
normalizes to rank 100 − 1 = 99; one with the "bottom" token and number 5
to rank 5; a bare numeric label with number 100 to 100/1000·100 = 10. -/
theorem label_normalization (s : String) (m : List Char)
    (hm : firstNum s.toList = some m) :
    (containsRun ['상', '위'] s.toList = true → numCharsToRat m = 1 →
      get_percentile_rank s = 99) ∧
    (containsRun ['상', '위'] s.toList = false →
      containsRun ['하', '위'] s.toList = true → numCharsToRat m = 5 →
      get_percentile_rank s = 5) ∧
    (containsRun ['상', '위'] s.toList = false →
      containsRun ['하', '위'] s.toList = false → numCharsToRat m = 100 →
      get_percentile_rank s = 10) := by
  have hgp : get_percentile_rank s =
      (if containsRun ['상', '위'] s.toList then 100 - numCharsToRat m
       else if containsRun ['하', '위'] s.toList then numCharsToRat m
       else numCharsToRat m / 1000 * 100) := by
    unfold get_percentile_rank
    rw [hm]
  rw [hgp]
  refine ⟨?a, ?b, ?c⟩
  · intro hc hv
    rw [if_pos hc, hv]
    norm_num
  · intro hc1 hc2 hv
    rw [if_neg (by rw [hc1]; exact Bool.false_ne_true), if_pos hc2, hv]
  · intro hc1 hc2 hv
    rw [if_neg (by rw [hc1]; exact Bool.false_ne_true),
      if_neg (by rw [hc2]; exact Bool.false_ne_true), hv]
    norm_num

/-- C7, witness on the concrete labels of the source data conventions. -/
theorem label_normalization_witness :
    get_percentile_rank "상위 1%" = 99 ∧ get_percentile_rank "하위 5%" = 5 ∧
    get_percentile_rank "100분위" = 10 :=
  ⟨(label_normalization "상위 1%" ['1'] rfl).1 rfl rfl,
   ((label_normalization "하위 5%" ['5'] rfl).2).1 rfl rfl rfl,
   ((label_normalization "100분위" ['1', '0', '0'] rfl).2).2 rfl rfl rfl⟩

/-- C8: whenever resolution produces a result, its interpolated percentile
estimate lies in [0,100]. -/
theorem estimate_within_bounds (df : List TableRow) (q : ℚ)
    (r : ResolutionResult) (h : resolve df q = Except.ok r) :
    0 ≤ r.estimate ∧ r.estimate ≤ 100 := by
  cases df with
  | nil =>
    rw [show resolve [] q = Except.error ResolveErr.emptyTable from rfl] at h
    simp at h
  | cons t0 rest =>
    have hres := resEstimate_resolve t0 rest q
    rw [h] at hres
    simp only [resEstimate] at hres
    rw [Option.some.inj hres]
    unfold estFun
    split
    next => norm_num
    next =>
      split
      next => norm_num
      next => exact ⟨clip100_nonneg _, clip100_le _⟩

/-- C8, witness: the below-range result for query 3 on the table [(10,5)]
has estimate 0, which lies in [0,100]. -/
theorem estimate_within_bounds_witness :
    0 ≤ (ResolutionResult.mk ResKind.belowRange 0).estimate ∧
      (ResolutionResult.mk ResKind.belowRange 0).estimate ≤ 100 :=
  estimate_within_bounds [mkRow 10 5] 3 ⟨ResKind.belowRange, 0⟩ rfl

end SalaryRank
